import Mathlib

/-!
Shallow embedding of the `juntuu/demo-app` repository (a RealWorld "Conduit"
blogging platform written in Rust on sqlite) and proofs about it.

The database tables (`user`, `article`, `tag`, `favorite`, `follow`,
`comment`) are modelled as lists of row structures; each SQL statement used
by the code is translated to the corresponding list operation.  SQLite
compares TEXT values byte-wise; since UTF-8 byte order coincides with code
point order, this is modelled by a lexicographic comparison on `String.toList`.
-/

/-- Byte-wise (code point) lexicographic strict order on character lists,
modelling SQLite TEXT comparison (memcmp of UTF-8 bytes). -/
def bytesLt : List Char → List Char → Bool
  | _, [] => false
  | [], _ :: _ => true
  | a :: as, b :: bs => a < b || (a == b && bytesLt as bs)

/-- SQLite `<` on TEXT values. -/
def sqlLt (a b : String) : Bool := bytesLt a.toList b.toList

/-- SQLite `<=` on TEXT values (the negation of `>`). -/
def sqlLe (a b : String) : Bool := !(bytesLt b.toList a.toList)

/-! ## Database rows (schema inferred from the SQL statements in `src/`) -/

/-- A row of the `user` table (`src/models/user.rs`). -/
structure UserRow where
  username : String
  email : String
  password : String
  bio : Option String
  image : Option String
deriving DecidableEq

/-- A row of the `article` table (`src/models/article.rs`). -/
structure ArticleRow where
  slug : String
  title : String
  description : String
  body : String
  author : String
  created_at : String
  updated_at : Option String
deriving DecidableEq

/-- A row of the `tag` table. -/
structure TagRow where
  article : String
  tag : String
deriving DecidableEq

/-- A row of the `favorite` table. -/
structure FavoriteRow where
  user : String
  article : String
deriving DecidableEq

/-- A row of the `follow` table. -/
structure FollowRow where
  follower : String
  followed : String
deriving DecidableEq

/-- A row of the `comment` table (`src/models/comment.rs`). -/
structure CommentRow where
  id : Int
  article : String
  user : String
  body : String
  created_at : String
deriving DecidableEq

/-- The whole database state. -/
structure DB where
  users : List UserRow
  articles : List ArticleRow
  tags : List TagRow
  favorites : List FavoriteRow
  follows : List FollowRow
  comments : List CommentRow
deriving DecidableEq

/-! ## The API structures of `src/models/article.rs` -/

/-- `Profile` from `src/models/user.rs`. -/
structure Profile where
  username : String
  bio : Option String
  image : Option String
  following : Bool
deriving DecidableEq

/-- `Article` from `src/models/article.rs` (lines 5-19).
Rust's `u32` count is modelled as `Nat`. -/
structure Article where
  slug : String
  title : String
  description : String
  body : String
  created_at : String
  updated_at : Option String
  tags : List String
  favorited : Bool
  favorites_count : Nat
  author : Profile
deriving DecidableEq

/-- `FeedOptions` from `src/models/article.rs` (lines 34-38); `limit: u8` is
modelled as `Nat`. -/
structure FeedOptions where
  after : String
  limit : Nat
  user : Option String
deriving DecidableEq

/-- `impl Default for FeedOptions` (`src/models/article.rs` lines 40-48). -/
def FeedOptions.default : FeedOptions :=
  { after := "~" -- greater than any date string
    limit := 20
    user := none }

/-- `sqlx::Error` values this code produces. -/
inductive SqlxError
  | RowNotFound
deriving DecidableEq

/-! ## Pure helpers of `Article` -/

/-- Rust `char::is_ascii_alphanumeric`. -/
def isAsciiAlphanumeric (c : Char) : Bool :=
  ('A' ≤ c && c ≤ 'Z') || ('a' ≤ c && c ≤ 'z') || ('0' ≤ c && c ≤ '9')

/-- Rust `u8::to_ascii_lowercase` on a char known to be ASCII (the effect of
`str::make_ascii_lowercase` on each char). -/
def asciiLower (c : Char) : Char :=
  if 'A' ≤ c && c ≤ 'Z' then Char.ofNat (c.toNat + 32) else c

/-- `Article::slug_from_title` (`src/models/article.rs` lines 145-160), on the
character list of the title: spaces map to `'-'`, ASCII alphanumerics are
kept, everything else is dropped; leading dashes are skipped; the result is
ASCII-lowercased; an `'x'` is appended when the result ends with `'-'`. -/
def Article.slug_from_title (title : List Char) : List Char :=
  let slug :=
    ((title.filterMap fun c =>
        if c = ' ' then some '-'
        else if isAsciiAlphanumeric c then some c
        else none).dropWhile fun c => c = '-').map asciiLower
  if slug.getLast? = some '-' then slug ++ ['x'] else slug

/-- Rust `str::split('-')` on a character list: the list of `'-'`-separated
parts (an empty input yields one empty part, like Rust). -/
def splitDash : List Char → List (List Char)
  | [] => [[]]
  | c :: cs =>
    if c = '-' then [] :: splitDash cs
    else
      match splitDash cs with
      | [] => [[c]]
      | p :: ps => (c :: p) :: ps

/-- The per-tag check inside `Article::validate` (`src/models/article.rs`
lines 182-187): a tag is invalid when it is longer than 20 bytes or some
`'-'`-separated part is empty or has a char outside `a`-`z`. -/
def invalidTag (tag : String) : Bool :=
  tag.utf8ByteSize > 20 ||
    (splitDash tag.toList).any fun part =>
      part.isEmpty || part.any fun c => !('a' ≤ c && c ≤ 'z')

/-- `Article::validate` (`src/models/article.rs` lines 162-196).
String lengths are byte lengths, as in Rust. -/
def Article.validate (title description body : String) (tags : List String) :
    Option (List String) :=
  let errors :=
    (if title == "" then ["missing title"]
     else if title.utf8ByteSize > 100 then ["too long title"]
     else []) ++
    (if description == "" then ["missing description"]
     else if description.utf8ByteSize > 300 then ["too long description"]
     else []) ++
    (if body == "" then ["missing body"]
     else if body.utf8ByteSize > 20000 then ["too long body"]
     else []) ++
    (if tags.any invalidTag then
      ["invalid tag (must be short, lowercase a-z and in kebab-case)"]
     else [])
  if errors.isEmpty then none else some errors

/-! ## Side queries used for denormalization -/

/-- `select tag from tag where article = ?` (tags of one article, in table
order). -/
def tagsFor (db : DB) (slug : String) : List String :=
  (db.tags.filter fun r => r.article == slug).map fun r => r.tag

/-- `select count(*) from favorite where article = ?`. -/
def favCount (db : DB) (slug : String) : Nat :=
  (db.favorites.filter fun f => f.article == slug).length

/-- The row mapping of the `feed_query!` macro (`src/models/article.rs` lines
51-73): an `article` row joined with its author's `user` row, with the
indirect fields left at their defaults. -/
def rowToArticle (a : ArticleRow) (u : UserRow) : Article :=
  { slug := a.slug
    title := a.title
    description := a.description
    body := a.body
    created_at := a.created_at
    updated_at := a.updated_at
    tags := []
    favorited := false
    favorites_count := 0
    author :=
      { username := a.author
        bio := u.bio
        image := u.image
        following := false } }

/-- The ordering used by `order by article.created_at desc`. -/
def createdDesc (x y : Article) : Prop :=
  sqlLe y.created_at x.created_at = true

instance : DecidableRel createdDesc :=
  fun x y => inferInstanceAs (Decidable (_ = true))

/-- The common shape of the five feed queries: join `article` with `user` on
the author, keep rows with `created_at < options.after` satisfying the
variant's predicate `p`, order by `created_at` descending, and take at most
`options.limit` rows. -/
def feedRows (db : DB) (options : FeedOptions) (p : ArticleRow → Bool) :
    List Article :=
  List.take options.limit
    (List.insertionSort createdDesc
      ((db.articles.filter fun a =>
          sqlLt a.created_at options.after && p a).flatMap
        fun a =>
          (db.users.filter fun u => u.username == a.author).map (rowToArticle a)))

namespace Feed

/-- The loop body of `Feed::fill_details` (`src/models/article.rs` lines
337-347) for one article: tags and favorites count are overridden only when
the side query found at least one row (the hash maps built on lines 301-314
have entries only for such slugs), and `favorited` / `author.following` are
set from the per-user side queries (empty when `options.user` is `None`). -/
def fill_one (db : DB) (options : FeedOptions) (article : Article) : Article :=
  let ts := tagsFor db article.slug
  let a1 := if ts.isEmpty then article else { article with tags := ts }
  let n := favCount db article.slug
  let a2 := if n == 0 then a1 else { a1 with favorites_count := n }
  { a2 with
    favorited :=
      match options.user with
      | some u => db.favorites.any fun f => f.user == u && f.article == article.slug
      | none => false
    author :=
      { a2.author with
        following :=
          match options.user with
          | some u =>
            db.follows.any fun f =>
              f.follower == u && f.followed == article.author.username
          | none => false } }

/-- `Feed::fill_details` (`src/models/article.rs` lines 293-350). -/
def fill_details (db : DB) (options : FeedOptions) (articles : List Article) :
    List Article :=
  articles.map (fill_one db options)

/-- `Feed::feed` (`src/models/article.rs` lines 352-370): articles whose
author is followed by `user`. -/
def feed (db : DB) (user : String) (options : FeedOptions) : List Article :=
  fill_details db options
    (feedRows db options fun a =>
      db.follows.any fun f => f.follower == user && f.followed == a.author)

/-- `Feed::global` (`src/models/article.rs` lines 372-387). -/
def global (db : DB) (options : FeedOptions) : List Article :=
  fill_details db options (feedRows db options fun _ => true)

/-- `Feed::by` (`src/models/article.rs` lines 389-405): articles authored by
`user` (`by` is a Lean keyword, hence the name). -/
def byAuthor (db : DB) (user : String) (options : FeedOptions) : List Article :=
  fill_details db options (feedRows db options fun a => a.author == user)

/-- `Feed::favorited` (`src/models/article.rs` lines 407-425): articles
favorited by `user`. -/
def favorited (db : DB) (user : String) (options : FeedOptions) : List Article :=
  fill_details db options
    (feedRows db options fun a =>
      db.favorites.any fun f => f.user == user && f.article == a.slug)

/-- `Feed::tag` (`src/models/article.rs` lines 427-445): articles carrying
the tag. -/
def tag (db : DB) (t : String) (options : FeedOptions) : List Article :=
  fill_details db options
    (feedRows db options fun a =>
      db.tags.any fun r => r.tag == t && r.article == a.slug)

end Feed

/-- `Article::get` (`src/models/article.rs` lines 77-122): the first joined
row for the slug (`fetch_one`, `None` models the `RowNotFound` error), with
tags and favorites count always filled in, and `favorited` /
`author.following` filled in only when `for_user` is `Some`. -/
def Article.get (db : DB) (slug : String) (for_user : Option String) :
    Option Article :=
  match ((db.articles.filter fun a => a.slug == slug).flatMap
      fun a =>
        (db.users.filter fun u => u.username == a.author).map
          (rowToArticle a)).head? with
  | none => none
  | some base =>
    let a1 := { base with tags := tagsFor db slug }
    let a2 := { a1 with favorites_count := favCount db slug }
    some
      (match for_user with
      | none => a2
      | some user =>
        { a2 with
          favorited :=
            db.favorites.any fun f => f.article == slug && f.user == user
          author :=
            { a2.author with
              following :=
                db.follows.any fun f =>
                  f.followed == a2.author.username && f.follower == user } })

/-! ## State-changing operations -/

/-- `Article::add_tags` (`src/models/article.rs` lines 274-281): insert one
`tag` row per tag. -/
def Article.add_tags (db : DB) (slug : String) (tags : List String) : DB :=
  { db with tags := db.tags ++ tags.map fun t => { article := slug, tag := t } }

/-- `Article::clear_tags` (`src/models/article.rs` lines 283-288): delete the
`tag` rows of the article. -/
def Article.clear_tags (db : DB) (slug : String) : DB :=
  { db with tags := db.tags.filter fun r => !(r.article == slug) }

/-- `Article::update` (`src/models/article.rs` lines 228-262).  `now` stands
for sqlite's `date('now')`.  The `update` statement touches every row with
the given slug and author and reports the number of affected rows; the
function errors unless exactly one row was affected, and otherwise replaces
the article's tags. -/
def Article.update (db : DB) (now author slug title description body : String)
    (tags : List String) : DB × Except SqlxError (Option (List String)) :=
  match Article.validate title description body tags with
  | some errors => (db, .ok (some errors))
  | none =>
    let hit : ArticleRow → Bool := fun a => a.slug == slug && a.author == author
    let affected := db.articles.countP hit
    let db1 := { db with
      articles := db.articles.map fun a =>
        if hit a then
          { a with
            title := title
            description := description
            body := body
            updated_at := some now }
        else a }
    if affected != 1 then (db1, .error .RowNotFound)
    else (Article.add_tags (Article.clear_tags db1 slug) slug tags, .ok none)

/-- `Comment::delete` (`src/models/comment.rs` lines 58-74): delete every
`comment` row with the given id and author, then report `RowNotFound` unless
exactly one row was affected. -/
def Comment.delete (db : DB) (id : Int) (user : String) :
    DB × Except SqlxError Unit :=
  let hit : CommentRow → Bool := fun c => c.id == id && c.user == user
  let affected := db.comments.countP hit
  let db1 := { db with comments := db.comments.filter fun c => !(hit c) }
  if affected == 1 then (db1, .ok ()) else (db1, .error .RowNotFound)

/-- The externally visible outcome of the `login` server function: which
session cookie was established, where the response redirects, which HTTP
status was forced, and whether the function returned `Ok(())`. -/
structure LoginResult where
  session : Option String
  redirect : Option String
  status : Option Nat
  ok : Bool
deriving DecidableEq

/-- The `login` server function (`src/auth.rs` lines 29-41), parameterized by
`password::verify` (a wrapper around the external argon2 crate): look up the
stored hash of the first `user` row with the username (`fetch_optional`);
when a hash is found and verifies, set the session cookie and redirect to
`/`; otherwise force status 403.  Either way the function returns `Ok(())`. -/
def login (verify : String → String → Bool) (db : DB)
    (username password : String) : LoginResult :=
  if (((db.users.find? fun u => u.username == username).map
      fun u => u.password).map fun h => verify password h).getD false then
    { session := some username, redirect := some "/", status := none, ok := true }
  else
    { session := none, redirect := none, status := some 403, ok := true }

/-- The `toggle_follow` server function (`src/app.rs` lines 654-680),
with `loggedIn` the authenticated username established by `require_login`.
`insert or ignore` relies on the `(follower, followed)` primary key; the
returned boolean is `rows_affected() == 1`. -/
def toggle_follow (db : DB) (loggedIn user : String) (current : Bool) :
    DB × Except SqlxError Bool :=
  if loggedIn == user then (db, .ok false) -- Can't follow oneself
  else if current then
    let hit : FollowRow → Bool := fun f =>
      f.follower == loggedIn && f.followed == user
    ({ db with follows := db.follows.filter fun f => !(hit f) },
      .ok (db.follows.countP hit == 1))
  else if db.follows.any fun f => f.follower == loggedIn && f.followed == user then
    (db, .ok false)
  else
    ({ db with follows := db.follows ++ [{ follower := loggedIn, followed := user }] },
      .ok true)

/-- The `toggle_favorite` server function (`src/app.rs` lines 683-718 and the
identical copy in `src/pages/article.rs` lines 59-98), with `loggedIn` the
authenticated username.  The guard query `select author = ? from article
where slug = ?` yields the first matching row's comparison result and
defaults to 1 (`unwrap_or(1)`) when the article does not exist. -/
def toggle_favorite (db : DB) (loggedIn article : String) (current : Bool) :
    DB × Except SqlxError Bool :=
  let own : Int :=
    match db.articles.find? fun a => a.slug == article with
    | some a => if a.author == loggedIn then 1 else 0
    | none => 1
  if own != 0 then (db, .ok false) -- Can't favorite own article
  else if current then
    let hit : FavoriteRow → Bool := fun f =>
      f.user == loggedIn && f.article == article
    ({ db with favorites := db.favorites.filter fun f => !(hit f) },
      .ok (db.favorites.countP hit == 1))
  else if db.favorites.any fun f => f.user == loggedIn && f.article == article then
    (db, .ok false)
  else
    ({ db with favorites := db.favorites ++ [{ user := loggedIn, article := article }] },
      .ok true)

/-- The social-graph invariant of claim C8: no user follows themself, and no
user favorites an article they authored. -/
def SocialInv (db : DB) : Prop :=
  (∀ f ∈ db.follows, f.follower ≠ f.followed) ∧
    ∀ v ∈ db.favorites, ∀ a ∈ db.articles, a.slug = v.article → a.author ≠ v.user

instance {ε α : Type} [DecidableEq ε] [DecidableEq α] : DecidableEq (Except ε α) :=
  fun x y =>
    match x, y with
    | .ok a, .ok b =>
      if h : a = b then .isTrue (congrArg Except.ok h)
      else .isFalse fun e => h (Except.ok.inj e)
    | .error a, .error b =>
      if h : a = b then .isTrue (congrArg Except.error h)
      else .isFalse fun e => h (Except.error.inj e)
    | .ok _, .error _ => .isFalse Except.noConfusion
    | .error _, .ok _ => .isFalse Except.noConfusion

/-! ## Order lemmas for the byte-wise string comparison -/

theorem bytesLt_irrefl : ∀ l : List Char, bytesLt l l = false := by
  intro l
  induction l with
  | nil => rfl
  | cons c cs ih => simp [bytesLt, ih]

theorem bytesLt_trans (a b c : List Char) (h1 : bytesLt a b = true)
    (h2 : bytesLt b c = true) : bytesLt a c = true := by
  induction a generalizing b c with
  | nil =>
    cases b with
    | nil => simp [bytesLt] at h1
    | cons y ys =>
      cases c with
      | nil => simp [bytesLt] at h2
      | cons z zs => simp [bytesLt]
  | cons x xs ih =>
    cases b with
    | nil => simp [bytesLt] at h1
    | cons y ys =>
      cases c with
      | nil => simp [bytesLt] at h2
      | cons z zs =>
        simp only [bytesLt, Bool.or_eq_true, Bool.and_eq_true, decide_eq_true_eq,
          beq_iff_eq] at h1 h2 ⊢
        rcases h1 with h1 | ⟨rfl, h1⟩
        · rcases h2 with h2 | ⟨rfl, h2⟩
          · exact Or.inl (lt_trans h1 h2)
          · exact Or.inl h1
        · rcases h2 with h2 | ⟨rfl, h2⟩
          · exact Or.inl h2
          · exact Or.inr ⟨rfl, ih _ _ h1 h2⟩

theorem bytesLt_conn (a b : List Char) (h1 : bytesLt a b = false)
    (h2 : bytesLt b a = false) : a = b := by
  induction a generalizing b with
  | nil =>
    cases b with
    | nil => rfl
    | cons y ys => simp [bytesLt] at h1
  | cons x xs ih =>
    cases b with
    | nil => simp [bytesLt] at h2
    | cons y ys =>
      simp only [bytesLt, Bool.or_eq_false_iff, Bool.and_eq_false_iff,
        decide_eq_false_iff_not, beq_eq_false_iff_ne, ne_eq] at h1 h2
      obtain ⟨hxy, hrest1⟩ := h1
      obtain ⟨hyx, hrest2⟩ := h2
      have heq : x = y := le_antisymm (not_lt.mp hyx) (not_lt.mp hxy)
      subst heq
      rcases hrest1 with h | h
      · exact absurd rfl h
      · rcases hrest2 with h' | h'
        · exact absurd rfl h'
        · rw [ih _ h h']

theorem bytesLt_false_trans (a b c : List Char) (h1 : bytesLt b a = false)
    (h2 : bytesLt c b = false) : bytesLt c a = false := by
  by_contra h
  rw [Bool.not_eq_false] at h
  rcases Bool.eq_false_or_eq_true (bytesLt b c) with hbc | hbc
  · have := bytesLt_trans b c a hbc h
    rw [this] at h1
    cases h1
  · rw [bytesLt_conn b c hbc h2] at h1
    rw [h1] at h
    cases h

instance : IsTrans Article createdDesc :=
  ⟨fun a b c h1 h2 => by
    unfold createdDesc sqlLe at h1 h2 ⊢
    rw [Bool.not_eq_true'] at h1 h2 ⊢
    exact bytesLt_false_trans _ _ _ h2 h1⟩

instance : IsTotal Article createdDesc :=
  ⟨fun a b => by
    unfold createdDesc sqlLe
    rw [Bool.not_eq_true', Bool.not_eq_true']
    rcases Bool.eq_false_or_eq_true
        (bytesLt a.created_at.toList b.created_at.toList) with h | h
    · right
      by_contra hb
      rw [Bool.not_eq_false] at hb
      have := bytesLt_trans _ _ _ h hb
      rw [bytesLt_irrefl] at this
      cases this
    · exact Or.inl h⟩

/-! ## Char bridging lemmas -/

theorem char_le_iff_toNat {c d : Char} : c ≤ d ↔ c.toNat ≤ d.toNat := by
  rw [Char.le_def, UInt32.le_def, BitVec.le_def]
  exact Iff.rfl

theorem char_toNat_ofNat_valid {n : ℕ} (h : n < 55296) :
    (Char.ofNat n).toNat = n := by
  rw [Char.ofNat, dif_pos (Or.inl h)]
  rfl

theorem asciiLower_of_upper {c : Char} (h : ('A' ≤ c && c ≤ 'Z') = true) :
    97 ≤ (asciiLower c).toNat ∧ (asciiLower c).toNat ≤ 122 := by
  unfold asciiLower
  rw [if_pos h]
  rw [Bool.and_eq_true, decide_eq_true_eq, decide_eq_true_eq] at h
  obtain ⟨h1, h2⟩ := h
  rw [char_le_iff_toNat] at h1 h2
  have hA : ('A' : Char).toNat = 65 := rfl
  have hZ : ('Z' : Char).toNat = 90 := rfl
  rw [hA] at h1
  rw [hZ] at h2
  rw [char_toNat_ofNat_valid (by omega)]
  omega

theorem asciiLower_of_not_upper {c : Char} (h : ('A' ≤ c && c ≤ 'Z') = false) :
    asciiLower c = c := by
  unfold asciiLower
  rw [if_neg]
  rw [h]
  exact Bool.false_ne_true

theorem head?_dropWhile_not {α : Type} (p : α → Bool) (l : List α) (a : α)
    (h : (l.dropWhile p).head? = some a) : p a = false := by
  induction l with
  | nil => cases h
  | cons x xs ih =>
    rw [List.dropWhile_cons] at h
    split at h
    · exact ih h
    · next hx =>
      injection h with h
      subst h
      exact Bool.eq_false_iff.mpr hx

/-- The allowed characters of a slug (claim C9). -/
def slugChar (c : Char) : Prop :=
  ('a' ≤ c ∧ c ≤ 'z') ∨ ('0' ≤ c ∧ c ≤ '9') ∨ c = '-'

theorem asciiLower_slugChar {c : Char} (h : isAsciiAlphanumeric c = true) :
    slugChar (asciiLower c) := by
  unfold isAsciiAlphanumeric at h
  rw [Bool.or_eq_true, Bool.or_eq_true] at h
  have hquote : ('a' : Char).toNat = 97 := rfl
  have hz : ('z' : Char).toNat = 122 := rfl
  have h0 : ('0' : Char).toNat = 48 := rfl
  have h9 : ('9' : Char).toNat = 57 := rfl
  have hA : ('A' : Char).toNat = 65 := rfl
  have hZ : ('Z' : Char).toNat = 90 := rfl
  rcases h with (h | h) | h
  · obtain ⟨hl, hr⟩ := asciiLower_of_upper h
    exact Or.inl ⟨char_le_iff_toNat.mpr (by omega), char_le_iff_toNat.mpr (by omega)⟩
  · rw [Bool.and_eq_true, decide_eq_true_eq, decide_eq_true_eq] at h
    obtain ⟨h1, h2⟩ := h
    rw [char_le_iff_toNat] at h1 h2
    rw [asciiLower_of_not_upper (by
      rw [Bool.and_eq_false_iff]
      right
      rw [decide_eq_false_iff_not]
      intro hle
      rw [char_le_iff_toNat] at hle
      omega)]
    exact Or.inl ⟨char_le_iff_toNat.mpr (by omega), char_le_iff_toNat.mpr (by omega)⟩
  · rw [Bool.and_eq_true, decide_eq_true_eq, decide_eq_true_eq] at h
    obtain ⟨h1, h2⟩ := h
    rw [char_le_iff_toNat] at h1 h2
    rw [asciiLower_of_not_upper (by
      rw [Bool.and_eq_false_iff]
      left
      rw [decide_eq_false_iff_not]
      intro hle
      rw [char_le_iff_toNat] at hle
      omega)]
    exact Or.inr (Or.inl ⟨char_le_iff_toNat.mpr (by omega), char_le_iff_toNat.mpr (by omega)⟩)

theorem asciiLower_dash {c : Char} (h : asciiLower c = '-') : c = '-' := by
  by_cases hup : ('A' ≤ c && c ≤ 'Z') = true
  · obtain ⟨hl, _⟩ := asciiLower_of_upper hup
    rw [h] at hl
    have : ('-' : Char).toNat = 45 := rfl
    omega
  · rw [asciiLower_of_not_upper (Bool.eq_false_iff.mpr hup)] at h
    exact h

/-- Claim C9: `Article::slug_from_title` yields only lowercase ASCII letters,
ASCII digits and dashes, and the result neither begins nor ends with a dash
(spaces become dashes, other non-alphanumerics are dropped, leading dashes
are skipped, the result is lowercased, and an `x` is appended whenever the
result would otherwise end with a dash). -/
theorem c9_slug_from_title_shape (title : List Char) :
    (∀ c ∈ Article.slug_from_title title, slugChar c) ∧
      (Article.slug_from_title title).head? ≠ some '-' ∧
      (Article.slug_from_title title).getLast? ≠ some '-' := by
  have hbase :
      ∀ c ∈ ((title.filterMap fun c =>
          if c = ' ' then some '-'
          else if isAsciiAlphanumeric c then some c
          else none).dropWhile fun c => c = '-').map asciiLower,
        slugChar c := by
    intro c hc
    rw [List.mem_map] at hc
    obtain ⟨c0, hc0, rfl⟩ := hc
    have hc0' := (List.dropWhile_sublist _).subset hc0
    rw [List.mem_filterMap] at hc0'
    obtain ⟨c1, _, hf⟩ := hc0'
    by_cases h1 : c1 = ' '
    · rw [if_pos h1] at hf
      injection hf with hf
      subst hf
      rw [asciiLower_of_not_upper (by decide)]
      exact Or.inr (Or.inr rfl)
    · rw [if_neg h1] at hf
      split at hf
      · next halpha =>
        injection hf with hf
        subst hf
        exact asciiLower_slugChar halpha
      · cases hf
  have hhead :
      (((title.filterMap fun c =>
          if c = ' ' then some '-'
          else if isAsciiAlphanumeric c then some c
          else none).dropWhile fun c => c = '-').map asciiLower).head? ≠
        some '-' := by
    rw [List.head?_map]
    intro h
    cases hd : ((title.filterMap fun c =>
        if c = ' ' then some '-'
        else if isAsciiAlphanumeric c then some c
        else none).dropWhile fun c => c = '-').head? with
    | none => rw [hd] at h; cases h
    | some c0 =>
      rw [hd] at h
      injection h with h
      have hc0 := head?_dropWhile_not _ _ _ hd
      rw [decide_eq_false_iff_not] at hc0
      exact hc0 (asciiLower_dash h)
  unfold Article.slug_from_title
  dsimp only
  split
  · next hlast =>
    refine ⟨?_, ?_, ?_⟩
    · intro c hc
      rw [List.mem_append] at hc
      rcases hc with hc | hc
      · exact hbase c hc
      · rw [List.mem_singleton] at hc
        subst hc
        exact Or.inl ⟨by decide, by decide⟩
    · rw [List.head?_append]
      cases hh : (((title.filterMap fun c =>
          if c = ' ' then some '-'
          else if isAsciiAlphanumeric c then some c
          else none).dropWhile fun c => c = '-').map asciiLower).head? with
      | none => intro h; rw [Option.none_or] at h; cases h
      | some c0 =>
        rw [hh] at hhead
        exact fun h => hhead h
    · rw [List.getLast?_concat]
      intro h
      cases h
  · next hlast => exact ⟨hbase, hhead, hlast⟩

/-- Witness for C9: the slug of a concrete title, evaluated. -/
theorem c9_slug_from_title_shape_witness :
    ('h' ∈ Article.slug_from_title " Héllo Wörld ".toList) ∧ slugChar 'h' ∧
      (Article.slug_from_title " Héllo Wörld ".toList).head? ≠ some '-' :=
  ⟨by decide, (c9_slug_from_title_shape " Héllo Wörld ".toList).1 'h' (by decide),
    (c9_slug_from_title_shape " Héllo Wörld ".toList).2.1⟩

/-! ## Claim C6: validation -/

/-- The tag well-formedness predicate of claim C6: at most 20 bytes, and
every `'-'`-separated part is non-empty and made of lowercase ASCII letters
only. -/
def tagOk (tag : String) : Prop :=
  tag.utf8ByteSize ≤ 20 ∧
    ∀ part ∈ splitDash tag.toList, part ≠ [] ∧ ∀ c ∈ part, 'a' ≤ c ∧ c ≤ 'z'

theorem invalidTag_eq_false_iff (tag : String) :
    invalidTag tag = false ↔ tagOk tag := by
  unfold invalidTag tagOk
  rw [Bool.or_eq_false_iff, decide_eq_false_iff_not, not_lt]
  constructor
  · rintro ⟨hsize, hparts⟩
    refine ⟨hsize, fun part hp => ?_⟩
    rw [List.any_eq_false] at hparts
    have := hparts part hp
    rw [Bool.not_eq_true, Bool.or_eq_false_iff] at this
    obtain ⟨hne, hchars⟩ := this
    rw [List.isEmpty_eq_false] at hne
    exact ⟨hne, fun c hc => by
      rw [List.any_eq_false] at hchars
      have := hchars c hc
      simpa using this⟩
  · rintro ⟨hsize, hparts⟩
    refine ⟨hsize, ?_⟩
    rw [List.any_eq_false]
    intro part hp
    obtain ⟨hne, hchars⟩ := hparts part hp
    rw [Bool.not_eq_true, Bool.or_eq_false_iff]
    refine ⟨?_, ?_⟩
    · rw [List.isEmpty_eq_false]
      exact hne
    · rw [List.any_eq_false]
      intro c hc
      simp [hchars c hc]

theorem errBlock_nil (s m1 m2 : String) (k : ℕ) :
    ((if s == "" then [m1] else if s.utf8ByteSize > k then [m2] else []) = []) ↔
      s ≠ "" ∧ s.utf8ByteSize ≤ k := by
  by_cases h1 : s = ""
  · simp [h1]
  · by_cases h2 : k < s.utf8ByteSize <;> simp [h1, h2] <;> omega

theorem errBlock_length (s m1 m2 : String) (k : ℕ) :
    (if s == "" then [m1] else if s.utf8ByteSize > k then [m2] else []).length =
      if s = "" ∨ k < s.utf8ByteSize then 1 else 0 := by
  by_cases h1 : s = ""
  · simp [h1]
  · by_cases h2 : k < s.utf8ByteSize <;> simp [h1, h2]

instance : DecidablePred tagOk := fun tag => by
  unfold tagOk
  infer_instance

theorem tagBlock_nil (msg : String) (tags : List String) :
    ((if tags.any invalidTag then [msg] else []) = []) ↔
      ∀ tag ∈ tags, tagOk tag := by
  by_cases h : tags.any invalidTag = true
  · rw [if_pos h]
    constructor
    · intro habs
      cases habs
    · intro hall
      rw [List.any_eq_true] at h
      obtain ⟨t, ht, hbad⟩ := h
      rw [(invalidTag_eq_false_iff t).mpr (hall t ht)] at hbad
      cases hbad
  · rw [if_neg h]
    rw [Bool.not_eq_true, List.any_eq_false] at h
    exact iff_of_true rfl fun t ht =>
      (invalidTag_eq_false_iff t).mp (Bool.not_eq_true _ ▸ h t ht)

theorem tagBlock_length (msg : String) (tags : List String) :
    (if tags.any invalidTag then [msg] else []).length =
      if ∀ tag ∈ tags, tagOk tag then 0 else 1 := by
  by_cases h : tags.any invalidTag = true
  · rw [if_pos h, if_neg]
    · rfl
    · intro hall
      rw [List.any_eq_true] at h
      obtain ⟨t, ht, hbad⟩ := h
      rw [(invalidTag_eq_false_iff t).mpr (hall t ht)] at hbad
      cases hbad
  · rw [if_neg h, if_pos]
    · rfl
    · rw [Bool.not_eq_true, List.any_eq_false] at h
      exact fun t ht => (invalidTag_eq_false_iff t).mp (Bool.not_eq_true _ ▸ h t ht)

/-- Claim C6: `Article::validate` returns `None` exactly when the title is
non-empty and at most 100 bytes, the description non-empty and at most 300
bytes, the body non-empty and at most 20000 bytes, and every tag is at most
20 bytes and consists of non-empty `'-'`-separated parts of lowercase ASCII
letters; otherwise it returns `Some` with exactly one error message per
violated field, the tags as a whole contributing at most one message. -/
theorem c6_validate_characterization (title description body : String)
    (tags : List String) :
    (Article.validate title description body tags = none ↔
      (title ≠ "" ∧ title.utf8ByteSize ≤ 100) ∧
        (description ≠ "" ∧ description.utf8ByteSize ≤ 300) ∧
        (body ≠ "" ∧ body.utf8ByteSize ≤ 20000) ∧
        ∀ tag ∈ tags, tagOk tag) ∧
      ∀ errs, Article.validate title description body tags = some errs →
        errs.length =
          (if title = "" ∨ 100 < title.utf8ByteSize then 1 else 0) +
            (if description = "" ∨ 300 < description.utf8ByteSize then 1 else 0) +
            (if body = "" ∨ 20000 < body.utf8ByteSize then 1 else 0) +
            (if ∀ tag ∈ tags, tagOk tag then 0 else 1) := by
  have hnone : ∀ l : List String,
      ((if l.isEmpty then none else some l) : Option (List String)) = none ↔
        l = [] := by
    intro l
    by_cases h : l = [] <;> simp [h]
  have hsome : ∀ l errs : List String,
      ((if l.isEmpty then none else some l) : Option (List String)) = some errs →
        errs = l := by
    intro l errs h
    by_cases h' : l = []
    · simp [h'] at h
    · simp [h'] at h
      exact h.symm
  constructor
  · unfold Article.validate
    dsimp only
    rw [hnone, List.append_eq_nil, List.append_eq_nil, List.append_eq_nil]
    constructor
    · rintro ⟨⟨⟨h1, h2⟩, h3⟩, h4⟩
      exact ⟨(errBlock_nil _ _ _ _).mp h1, (errBlock_nil _ _ _ _).mp h2,
        (errBlock_nil _ _ _ _).mp h3, (tagBlock_nil _ _).mp h4⟩
    · rintro ⟨h1, h2, h3, h4⟩
      exact ⟨⟨⟨(errBlock_nil _ _ _ _).mpr h1, (errBlock_nil _ _ _ _).mpr h2⟩,
        (errBlock_nil _ _ _ _).mpr h3⟩, (tagBlock_nil _ _).mpr h4⟩
  · intro errs h
    unfold Article.validate at h
    dsimp only at h
    have := hsome _ _ h
    subst this
    rw [List.length_append, List.length_append, List.length_append,
      errBlock_length, errBlock_length, errBlock_length, tagBlock_length]

/-- Witness for C6: a concrete invalid input has exactly two error
messages, and a concrete valid one passes. -/
theorem c6_validate_characterization_witness :
    (Article.validate "" "d" "b" ["Bad"] = some
        ["missing title", "invalid tag (must be short, lowercase a-z and in kebab-case)"]) ∧
      ["missing title", "invalid tag (must be short, lowercase a-z and in kebab-case)"].length =
        (if ("" : String) = "" ∨ 100 < ("" : String).utf8ByteSize then 1 else 0) +
          (if ("d" : String) = "" ∨ 300 < ("d" : String).utf8ByteSize then 1 else 0) +
          (if ("b" : String) = "" ∨ 20000 < ("b" : String).utf8ByteSize then 1 else 0) +
          (if ∀ tag ∈ ["Bad"], tagOk tag then 0 else 1) :=
  ⟨by decide,
    (c6_validate_characterization "" "d" "b" ["Bad"]).2
      ["missing title", "invalid tag (must be short, lowercase a-z and in kebab-case)"]
      (by decide)⟩

/-! ## Lemmas about the feed machinery -/

theorem mem_of_head? {α : Type} {l : List α} {a : α} (h : l.head? = some a) :
    a ∈ l := by
  cases l with
  | nil => cases h
  | cons x xs =>
    injection h with h
    subst h
    exact List.mem_cons_self x xs

theorem fill_one_preserves (db : DB) (o : FeedOptions) (a : Article) :
    (Feed.fill_one db o a).slug = a.slug ∧
      (Feed.fill_one db o a).author.username = a.author.username ∧
      (Feed.fill_one db o a).created_at = a.created_at := by
  unfold Feed.fill_one
  simp only
  split <;> split <;> exact ⟨rfl, rfl, rfl⟩

theorem fill_one_favorited (db : DB) (o : FeedOptions) (a : Article) :
    (Feed.fill_one db o a).favorited =
      match o.user with
      | some u => db.favorites.any fun f => f.user == u && f.article == a.slug
      | none => false := rfl

theorem fill_one_following (db : DB) (o : FeedOptions) (a : Article) :
    (Feed.fill_one db o a).author.following =
      match o.user with
      | some u =>
        db.follows.any fun f => f.follower == u && f.followed == a.author.username
      | none => false := rfl

theorem fill_one_tags (db : DB) (o : FeedOptions) (a : Article)
    (h : a.tags = []) : (Feed.fill_one db o a).tags = tagsFor db a.slug := by
  unfold Feed.fill_one
  simp only
  split_ifs with h1 h2 h3
  · exact h.trans (List.isEmpty_iff.mp h2).symm
  · rfl
  · exact h.trans (List.isEmpty_iff.mp h3).symm
  · rfl

theorem fill_one_count (db : DB) (o : FeedOptions) (a : Article)
    (h : a.favorites_count = 0) :
    (Feed.fill_one db o a).favorites_count = favCount db a.slug := by
  unfold Feed.fill_one
  simp only
  split_ifs with h1 h2 h3
  · exact h.trans (beq_iff_eq.mp h1).symm
  · exact h.trans (beq_iff_eq.mp h1).symm
  · rfl
  · rfl

theorem mem_fill_details {db : DB} {o : FeedOptions} {l : List Article}
    {art : Article} (h : art ∈ Feed.fill_details db o l) :
    ∃ a ∈ l, art = Feed.fill_one db o a := by
  unfold Feed.fill_details at h
  rw [List.mem_map] at h
  obtain ⟨a, ha, rfl⟩ := h
  exact ⟨a, ha, rfl⟩

theorem mem_feedRows {db : DB} {o : FeedOptions} {p : ArticleRow → Bool}
    {a : Article} (h : a ∈ feedRows db o p) :
    ∃ row ∈ db.articles, p row = true ∧ sqlLt row.created_at o.after = true ∧
      ∃ u ∈ db.users, a = rowToArticle row u := by
  unfold feedRows at h
  have h1 := List.take_subset _ _ h
  rw [List.mem_insertionSort] at h1
  rw [List.mem_flatMap] at h1
  obtain ⟨row, hrow, hmem⟩ := h1
  rw [List.mem_filter] at hrow
  obtain ⟨hrow, hcond⟩ := hrow
  rw [Bool.and_eq_true] at hcond
  rw [List.mem_map] at hmem
  obtain ⟨u, hu, rfl⟩ := hmem
  rw [List.mem_filter] at hu
  exact ⟨row, hrow, hcond.2, hcond.1, u, hu.1, rfl⟩

/-- A small concrete database shared by the witness theorems. -/
def sampleDB : DB :=
  { users :=
      [{ username := "alice", email := "a@x.io", password := "ha", bio := none,
         image := none },
       { username := "bob", email := "b@x.io", password := "hb",
         bio := some "bio", image := none }]
    articles :=
      [{ slug := "first-post", title := "First Post", description := "d",
         body := "b", author := "bob", created_at := "2024-01-02",
         updated_at := none },
       { slug := "second", title := "Second", description := "d2", body := "b2",
         author := "alice", created_at := "2024-01-03", updated_at := none }]
    tags := [{ article := "first-post", tag := "tech" }]
    favorites := [{ user := "alice", article := "first-post" }]
    follows := [{ follower := "alice", followed := "bob" }]
    comments :=
      [{ id := 1, article := "first-post", user := "alice", body := "hi",
         created_at := "2024-01-04" }] }

/-- Feed options with a logged-in user, for the witness theorems. -/
def sampleOptions : FeedOptions :=
  { after := "~", limit := 20, user := some "alice" }

/-- Claim C1: each article returned by `Feed::fill_details` on query rows
(whose indirect fields start at their defaults, as the rows of every feed
variant do) has `favorites_count` equal to the number of `favorite` rows for
its slug, `tags` equal to the `tag` rows for its slug, `favorited` true iff
the option user has a favorite row for the slug, and `author.following` true
iff the option user follows the author; `Article::get` computes the same
four fields, leaving `favorited` and `following` false when `for_user` is
`None`. -/
theorem c1_fill_details_and_get (db : DB) (options : FeedOptions) :
    (∀ articles, (∀ a ∈ articles, a.tags = [] ∧ a.favorites_count = 0) →
      ∀ art ∈ Feed.fill_details db options articles,
        art.favorites_count = favCount db art.slug ∧
          art.tags = tagsFor db art.slug ∧
          (art.favorited = true ↔ ∃ u, options.user = some u ∧
            ∃ f ∈ db.favorites, f.user = u ∧ f.article = art.slug) ∧
          (art.author.following = true ↔ ∃ u, options.user = some u ∧
            ∃ f ∈ db.follows, f.follower = u ∧
              f.followed = art.author.username)) ∧
      (∀ slug user art, Article.get db slug (some user) = some art →
        art.favorites_count = favCount db slug ∧
          art.tags = tagsFor db slug ∧
          (art.favorited = true ↔
            ∃ f ∈ db.favorites, f.article = slug ∧ f.user = user) ∧
          (art.author.following = true ↔
            ∃ f ∈ db.follows, f.followed = art.author.username ∧
              f.follower = user)) ∧
      ∀ slug art, Article.get db slug none = some art →
        art.favorites_count = favCount db slug ∧
          art.tags = tagsFor db slug ∧
          art.favorited = false ∧ art.author.following = false := by
  refine ⟨?_, ?_, ?_⟩
  · intro articles hdef art hart
    obtain ⟨a, ha, rfl⟩ := mem_fill_details hart
    obtain ⟨htags0, hcount0⟩ := hdef a ha
    obtain ⟨hslug, huser, -⟩ := fill_one_preserves db options a
    refine ⟨?_, ?_, ?_, ?_⟩
    · rw [hslug]
      exact fill_one_count db options a hcount0
    · rw [hslug]
      exact fill_one_tags db options a htags0
    · rw [hslug, fill_one_favorited]
      cases options.user with
      | none => simp
      | some u => simp [List.any_eq_true]
    · rw [huser, fill_one_following]
      cases options.user with
      | none => simp
      | some u => simp [List.any_eq_true]
  · intro slug user art h
    unfold Article.get at h
    cases hh : ((db.articles.filter fun a => a.slug == slug).flatMap fun a =>
        (db.users.filter fun u => u.username == a.author).map
          (rowToArticle a)).head? with
    | none =>
      rw [hh] at h
      cases h
    | some base =>
      rw [hh] at h
      dsimp only at h
      injection h with h
      subst h
      refine ⟨rfl, rfl, ?_, ?_⟩
      · simp [List.any_eq_true]
      · simp [List.any_eq_true]
  · intro slug art h
    unfold Article.get at h
    cases hh : ((db.articles.filter fun a => a.slug == slug).flatMap fun a =>
        (db.users.filter fun u => u.username == a.author).map
          (rowToArticle a)).head? with
    | none =>
      rw [hh] at h
      cases h
    | some base =>
      have hbm := mem_of_head? hh
      rw [List.mem_flatMap] at hbm
      obtain ⟨row, hrow, hbm⟩ := hbm
      rw [List.mem_map] at hbm
      obtain ⟨u, hu, hbase⟩ := hbm
      rw [hh] at h
      dsimp only at h
      injection h with h
      subst h
      subst hbase
      exact ⟨rfl, rfl, rfl, rfl⟩

/-- The joined row of `sampleDB`'s first article, as `feed_query!` maps it. -/
def sampleRowArticle : Article :=
  rowToArticle
    { slug := "first-post", title := "First Post", description := "d",
      body := "b", author := "bob", created_at := "2024-01-02",
      updated_at := none }
    { username := "bob", email := "b@x.io", password := "hb", bio := some "bio",
      image := none }

/-- Witness for C1: the denormalized favorites count of a concrete article. -/
theorem c1_fill_details_and_get_witness :
    (∀ a ∈ [sampleRowArticle], a.tags = [] ∧ a.favorites_count = 0) ∧
      Feed.fill_one sampleDB sampleOptions sampleRowArticle ∈
        Feed.fill_details sampleDB sampleOptions [sampleRowArticle] ∧
      (Feed.fill_one sampleDB sampleOptions sampleRowArticle).favorites_count =
        favCount sampleDB
          (Feed.fill_one sampleDB sampleOptions sampleRowArticle).slug :=
  ⟨by decide, by decide,
    ((c1_fill_details_and_get sampleDB sampleOptions).1 [sampleRowArticle]
      (by decide) _ (by decide)).1⟩

/-- Claim C2: membership restrictions of the five feed variants.  `global`
draws from the `article` table with no authorship restriction; `feed`
returns only articles whose author is followed by the user; `by` only
articles authored by the user; `favorited` only articles the user
favorited; `tag` only articles carrying the tag. -/
theorem c2_feed_variant_membership (db : DB) (options : FeedOptions) :
    (∀ user art, art ∈ Feed.feed db user options →
      ∃ f ∈ db.follows, f.follower = user ∧
        f.followed = art.author.username) ∧
      (∀ user art, art ∈ Feed.byAuthor db user options →
        art.author.username = user) ∧
      (∀ user art, art ∈ Feed.favorited db user options →
        ∃ f ∈ db.favorites, f.user = user ∧ f.article = art.slug) ∧
      (∀ t art, art ∈ Feed.tag db t options →
        ∃ r ∈ db.tags, r.tag = t ∧ r.article = art.slug) ∧
      ∀ art, art ∈ Feed.global db options →
        ∃ row ∈ db.articles, art.slug = row.slug := by
  refine ⟨?_, ?_, ?_, ?_, ?_⟩
  · intro user art hart
    obtain ⟨a, ha, rfl⟩ := mem_fill_details hart
    obtain ⟨row, hrow, hp, hafter, u, hu, rfl⟩ := mem_feedRows ha
    rw [(fill_one_preserves db options _).2.1]
    rw [List.any_eq_true] at hp
    obtain ⟨f, hf, hcond⟩ := hp
    rw [Bool.and_eq_true, beq_iff_eq, beq_iff_eq] at hcond
    exact ⟨f, hf, hcond.1, hcond.2⟩
  · intro user art hart
    obtain ⟨a, ha, rfl⟩ := mem_fill_details hart
    obtain ⟨row, hrow, hp, hafter, u, hu, rfl⟩ := mem_feedRows ha
    rw [(fill_one_preserves db options _).2.1]
    exact beq_iff_eq.mp hp
  · intro user art hart
    obtain ⟨a, ha, rfl⟩ := mem_fill_details hart
    obtain ⟨row, hrow, hp, hafter, u, hu, rfl⟩ := mem_feedRows ha
    rw [(fill_one_preserves db options _).1]
    rw [List.any_eq_true] at hp
    obtain ⟨f, hf, hcond⟩ := hp
    rw [Bool.and_eq_true, beq_iff_eq, beq_iff_eq] at hcond
    exact ⟨f, hf, hcond.1, hcond.2⟩
  · intro t art hart
    obtain ⟨a, ha, rfl⟩ := mem_fill_details hart
    obtain ⟨row, hrow, hp, hafter, u, hu, rfl⟩ := mem_feedRows ha
    rw [(fill_one_preserves db options _).1]
    rw [List.any_eq_true] at hp
    obtain ⟨r, hr, hcond⟩ := hp
    rw [Bool.and_eq_true, beq_iff_eq, beq_iff_eq] at hcond
    exact ⟨r, hr, hcond.1, hcond.2⟩
  · intro art hart
    obtain ⟨a, ha, rfl⟩ := mem_fill_details hart
    obtain ⟨row, hrow, hp, hafter, u, hu, rfl⟩ := mem_feedRows ha
    exact ⟨row, hrow, (fill_one_preserves db options _).1⟩

/-- Witness for C2: the personal feed of `alice` on the sample database
contains an article, and its author is followed by `alice`. -/
theorem c2_feed_variant_membership_witness :
    (Feed.fill_one sampleDB FeedOptions.default sampleRowArticle ∈
        Feed.feed sampleDB "alice" FeedOptions.default) ∧
      ∃ f ∈ sampleDB.follows, f.follower = "alice" ∧
        f.followed =
          (Feed.fill_one sampleDB FeedOptions.default
            sampleRowArticle).author.username :=
  ⟨by decide,
    (c2_feed_variant_membership sampleDB FeedOptions.default).1 "alice" _
      (by decide)⟩

theorem feedVariant_props (db : DB) (o : FeedOptions) (p : ArticleRow → Bool) :
    (Feed.fill_details db o (feedRows db o p)).length ≤ o.limit ∧
      List.Pairwise createdDesc (Feed.fill_details db o (feedRows db o p)) ∧
      ∀ art ∈ Feed.fill_details db o (feedRows db o p),
        sqlLt art.created_at o.after = true := by
  refine ⟨?_, ?_, ?_⟩
  · unfold Feed.fill_details
    rw [List.length_map]
    unfold feedRows
    exact List.length_take_le _ _
  · have hs : List.Pairwise createdDesc (feedRows db o p) := by
      unfold feedRows
      exact List.Pairwise.sublist (List.take_sublist _ _)
        (List.sorted_insertionSort createdDesc _)
    unfold Feed.fill_details
    refine List.Pairwise.map _ (fun a b hab => ?_) hs
    unfold createdDesc at hab ⊢
    rw [(fill_one_preserves db o a).2.2, (fill_one_preserves db o b).2.2]
    exact hab
  · intro art hart
    obtain ⟨a, ha, rfl⟩ := mem_fill_details hart
    obtain ⟨row, hrow, hp, hafter, u, hu, rfl⟩ := mem_feedRows ha
    rw [(fill_one_preserves db o _).2.2]
    exact hafter

/-- Claim C3: every feed variant returns at most `options.limit` articles,
ordered by `created_at` descending, all with `created_at` strictly below
`options.after`; the default options have `after = "~"` and `limit = 20`. -/
theorem c3_feed_pagination (db : DB) (options : FeedOptions) :
    (∀ user, (Feed.feed db user options).length ≤ options.limit ∧
      List.Pairwise createdDesc (Feed.feed db user options) ∧
      ∀ art ∈ Feed.feed db user options,
        sqlLt art.created_at options.after = true) ∧
      ((Feed.global db options).length ≤ options.limit ∧
        List.Pairwise createdDesc (Feed.global db options) ∧
        ∀ art ∈ Feed.global db options,
          sqlLt art.created_at options.after = true) ∧
      (∀ user, (Feed.byAuthor db user options).length ≤ options.limit ∧
        List.Pairwise createdDesc (Feed.byAuthor db user options) ∧
        ∀ art ∈ Feed.byAuthor db user options,
          sqlLt art.created_at options.after = true) ∧
      (∀ user, (Feed.favorited db user options).length ≤ options.limit ∧
        List.Pairwise createdDesc (Feed.favorited db user options) ∧
        ∀ art ∈ Feed.favorited db user options,
          sqlLt art.created_at options.after = true) ∧
      (∀ t, (Feed.tag db t options).length ≤ options.limit ∧
        List.Pairwise createdDesc (Feed.tag db t options) ∧
        ∀ art ∈ Feed.tag db t options,
          sqlLt art.created_at options.after = true) ∧
      FeedOptions.default = { after := "~", limit := 20, user := none } :=
  ⟨fun _ => feedVariant_props db options _,
    feedVariant_props db options _,
    fun _ => feedVariant_props db options _,
    fun _ => feedVariant_props db options _,
    fun _ => feedVariant_props db options _,
    rfl⟩

/-- Witness for C3: the concrete global feed respects the limit and a
concrete member is strictly before the default horizon. -/
theorem c3_feed_pagination_witness :
    (Feed.global sampleDB FeedOptions.default).length ≤
        FeedOptions.default.limit ∧
      (Feed.fill_one sampleDB FeedOptions.default sampleRowArticle ∈
        Feed.global sampleDB FeedOptions.default) ∧
      sqlLt (Feed.fill_one sampleDB FeedOptions.default
          sampleRowArticle).created_at FeedOptions.default.after = true :=
  ⟨(c3_feed_pagination sampleDB FeedOptions.default).2.1.1, by decide,
    (c3_feed_pagination sampleDB FeedOptions.default).2.1.2.2 _ (by decide)⟩

/-! ## Uniqueness helpers for primary-key columns -/

theorem find?_key_of_nodup {α β : Type} [DecidableEq β] (key : α → β)
    {l : List α} {x : α} (hn : (l.map key).Nodup) (hx : x ∈ l) (v : β)
    (hv : key x = v) : l.find? (fun a => key a == v) = some x := by
  induction l with
  | nil => cases hx
  | cons y ys ih =>
    rw [List.map_cons, List.nodup_cons] at hn
    rcases List.mem_cons.mp hx with rfl | hx'
    · exact List.find?_cons_of_pos _ (beq_iff_eq.mpr hv)
    · rw [List.find?_cons_of_neg _ ?_, ih hn.2 hx']
      rw [beq_iff_eq]
      intro he
      apply hn.1
      rw [he, ← hv]
      exact List.mem_map_of_mem key hx'

theorem countP_le_one_of_key_nodup {α β : Type} [DecidableEq β] (key : α → β)
    (p : α → Bool) {l : List α} {v : β} (hn : (l.map key).Nodup)
    (himp : ∀ a ∈ l, p a = true → key a = v) : l.countP p ≤ 1 := by
  calc l.countP p ≤ l.countP fun a => key a == v :=
        List.countP_mono_left fun a ha hp => beq_iff_eq.mpr (himp a ha hp)
    _ = (l.map key).countP fun b => b == v := by
          rw [List.countP_map]
          rfl
    _ = (l.map key).count v := (List.count_eq_countP _ _).symm
    _ ≤ 1 := List.nodup_iff_count_le_one.mp hn v

theorem countP_key_eq_one {α β : Type} [DecidableEq β] (key : α → β)
    (p : α → Bool) {l : List α} {x : α} (hn : (l.map key).Nodup) (hx : x ∈ l)
    (hpx : p x = true) (himp : ∀ a ∈ l, p a = true → key a = key x) :
    l.countP p = 1 :=
  Nat.le_antisymm (countP_le_one_of_key_nodup key p hn himp)
    (List.countP_pos_iff.mpr ⟨x, hx, hpx⟩)

/-! ## Claim C4: login -/

/-- Claim C4: assuming unique usernames, `login` sets the session cookie for
the username and redirects to `/` exactly when a `user` row with that
username exists whose stored hash verifies against the supplied password;
in every other case it sets HTTP status 403, establishes no session and no
redirect; and it returns `Ok(())` in every case. -/
theorem c4_login (verify : String → String → Bool) (db : DB)
    (username password : String)
    (hn : (db.users.map fun u => u.username).Nodup) :
    (login verify db username password).ok = true ∧
      ((∃ u ∈ db.users, u.username = username ∧
          verify password u.password = true) →
        login verify db username password =
          { session := some username, redirect := some "/", status := none,
            ok := true }) ∧
      ((¬∃ u ∈ db.users, u.username = username ∧
          verify password u.password = true) →
        login verify db username password =
          { session := none, redirect := none, status := some 403,
            ok := true }) := by
  refine ⟨?_, ?_, ?_⟩
  · unfold login
    split <;> rfl
  · rintro ⟨u, hu, huser, hver⟩
    unfold login
    rw [find?_key_of_nodup (fun x => x.username) hn hu username huser]
    exact if_pos hver
  · intro hno
    unfold login
    rw [if_neg]
    intro hc
    cases hf : db.users.find? fun u => u.username == username with
    | none =>
      rw [hf] at hc
      cases hc
    | some u =>
      rw [hf] at hc
      have hp : u.username = username := by simpa using List.find?_some hf
      exact hno ⟨u, List.mem_of_find?_eq_some hf, hp, hc⟩

/-- Witness for C4: on the sample database, a correct password for `bob`
logs in. -/
theorem c4_login_witness :
    ((sampleDB.users.map fun u => u.username).Nodup ∧
      ∃ u ∈ sampleDB.users, u.username = "bob" ∧
        ((fun p h => p == "pw" && h == "hb") "pw" u.password) = true) ∧
      login (fun p h => p == "pw" && h == "hb") sampleDB "bob" "pw" =
        { session := some "bob", redirect := some "/", status := none,
          ok := true } :=
  ⟨⟨by decide, by decide⟩,
    (c4_login (fun p h => p == "pw" && h == "hb") sampleDB "bob" "pw"
      (by decide)).2.1 (by decide)⟩

/-! ## Claim C7: comment deletion -/

theorem length_filter_not {α : Type} (p : α → Bool) (l : List α) :
    (l.filter fun a => !(p a)).length + l.countP p = l.length := by
  induction l with
  | nil => rfl
  | cons x xs ih =>
    by_cases h : p x = true
    · simp only [List.filter_cons, List.countP_cons, h, Bool.not_true,
        Bool.false_eq_true, if_false, if_true, List.length_cons]
      omega
    · rw [Bool.not_eq_true] at h
      simp only [List.filter_cons, List.countP_cons, h, Bool.not_false,
        Bool.false_eq_true, if_false, if_true, List.length_cons]
      omega

/-- Claim C7: `Comment::delete` removes exactly the comment with the given
id when one exists with that id authored by the user, returning `Ok(())`;
in every other case (no comment with the id, or a different author) it
removes nothing and returns `RowNotFound`.  Comment ids are unique sqlite
rowids, hence the `Nodup` hypothesis. -/
theorem c7_comment_delete (db : DB) (id : Int) (user : String) :
    ((¬∃ c ∈ db.comments, c.id = id ∧ c.user = user) →
      Comment.delete db id user = (db, .error .RowNotFound)) ∧
      ((db.comments.map fun c => c.id).Nodup →
        ∀ c0 ∈ db.comments, c0.id = id → c0.user = user →
          (Comment.delete db id user).2 = .ok () ∧
            (∀ c ∈ db.comments,
              c ∈ (Comment.delete db id user).1.comments ↔
                ¬(c.id = id ∧ c.user = user)) ∧
            (Comment.delete db id user).1.comments.length + 1 =
              db.comments.length ∧
            (Comment.delete db id user).1.users = db.users ∧
            (Comment.delete db id user).1.articles = db.articles ∧
            (Comment.delete db id user).1.tags = db.tags ∧
            (Comment.delete db id user).1.favorites = db.favorites ∧
            (Comment.delete db id user).1.follows = db.follows) := by
  constructor
  · intro hno
    have hc0 : (db.comments.countP fun c => c.id == id && c.user == user) = 0 := by
      rw [List.countP_eq_zero]
      intro c hc hmatch
      rw [Bool.and_eq_true, beq_iff_eq, beq_iff_eq] at hmatch
      exact hno ⟨c, hc, hmatch⟩
    have hf : (db.comments.filter fun c => !(c.id == id && c.user == user)) =
        db.comments := by
      rw [List.filter_eq_self]
      intro c hc
      rw [List.countP_eq_zero] at hc0
      rw [Bool.not_eq_true']
      exact Bool.eq_false_iff.mpr (hc0 c hc)
    unfold Comment.delete
    dsimp only
    rw [hc0, hf]
    rfl
  · intro hn c0 hc0 hid huser
    have hcount : (db.comments.countP fun c => c.id == id && c.user == user) = 1 := by
      apply countP_key_eq_one (fun c => c.id) _ hn hc0
      · rw [Bool.and_eq_true, beq_iff_eq, beq_iff_eq]
        exact ⟨hid, huser⟩
      · intro a ha hp
        rw [Bool.and_eq_true, beq_iff_eq, beq_iff_eq] at hp
        rw [hp.1, hid]
    have heq : Comment.delete db id user =
        ({ db with comments :=
            db.comments.filter fun c => !(c.id == id && c.user == user) },
          .ok ()) := by
      unfold Comment.delete
      dsimp only
      rw [hcount]
      rfl
    rw [heq]
    refine ⟨rfl, ?_, ?_, rfl, rfl, rfl, rfl, rfl⟩
    · intro c hc
      dsimp only
      rw [List.mem_filter]
      constructor
      · rintro ⟨-, hkeep⟩ hmatch
        rw [Bool.not_eq_true'] at hkeep
        simp [hmatch.1, hmatch.2] at hkeep
      · intro hnmatch
        refine ⟨hc, ?_⟩
        rw [Bool.not_eq_true', Bool.and_eq_false_iff]
        by_cases hcid : c.id = id
        · right
          rw [Bool.eq_false_iff]
          intro hcu
          exact hnmatch ⟨hcid, beq_iff_eq.mp hcu⟩
        · left
          rw [Bool.eq_false_iff]
          intro hci
          exact hcid (beq_iff_eq.mp hci)
    · have := length_filter_not (fun c => c.id == id && c.user == user) db.comments
      rw [hcount] at this
      exact this

/-- Witness for C7: deleting the sample comment succeeds and shortens the
table by one. -/
theorem c7_comment_delete_witness :
    ((sampleDB.comments.map fun c => c.id).Nodup ∧
      (∃ c0 ∈ sampleDB.comments, c0.id = 1 ∧ c0.user = "alice")) ∧
      (Comment.delete sampleDB 1 "alice").2 = .ok () ∧
      (Comment.delete sampleDB 1 "alice").1.comments.length + 1 =
        sampleDB.comments.length :=
  ⟨⟨by decide, by decide⟩,
    ((c7_comment_delete sampleDB 1 "alice").2 (by decide)
      { id := 1, article := "first-post", user := "alice", body := "hi",
        created_at := "2024-01-04" } (by decide) (by decide) (by decide)).1,
    ((c7_comment_delete sampleDB 1 "alice").2 (by decide)
      { id := 1, article := "first-post", user := "alice", body := "hi",
        created_at := "2024-01-04" } (by decide) (by decide) (by decide)).2.2.1⟩

/-! ## Claim C5: article update -/

theorem map_ite_of_none {α : Type} (p : α → Bool) (f : α → α) {l : List α}
    (h : ∀ a ∈ l, p a = false) :
    (l.map fun a => if p a then f a else a) = l := by
  induction l with
  | nil => rfl
  | cons x xs ih =>
    rw [List.map_cons]
    rw [ih fun a ha => h a (List.mem_cons_of_mem _ ha)]
    have hx := h x (List.mem_cons_self _ _)
    simp [hx]

theorem tagsFor_replace (db : DB) (slug : String) (tags : List String) :
    tagsFor (Article.add_tags (Article.clear_tags db slug) slug tags) slug =
      tags := by
  unfold tagsFor Article.add_tags Article.clear_tags
  dsimp only
  rw [List.filter_append, List.map_append]
  have h1 : List.filter (fun r => r.article == slug)
      (List.filter (fun r => !(r.article == slug)) db.tags) = [] := by
    rw [List.filter_filter, List.filter_eq_nil_iff]
    intro a ha
    simp
  have h2 : List.filter (fun r => r.article == slug)
      (tags.map fun t => { article := slug, tag := t }) =
      tags.map fun t => ({ article := slug, tag := t } : TagRow) := by
    rw [List.filter_eq_self]
    intro r hr
    rw [List.mem_map] at hr
    obtain ⟨t, -, rfl⟩ := hr
    exact beq_self_eq_true _
  rw [h1, h2]
  rw [List.map_map]
  exact List.map_id' tags

theorem tagsFor_replace_other (db : DB) (slug s : String) (tags : List String)
    (h : s ≠ slug) :
    tagsFor (Article.add_tags (Article.clear_tags db slug) slug tags) s =
      tagsFor db s := by
  unfold tagsFor Article.add_tags Article.clear_tags
  dsimp only
  rw [List.filter_append, List.map_append]
  have h2 : List.filter (fun r => r.article == s)
      (tags.map fun t => ({ article := slug, tag := t } : TagRow)) = [] := by
    rw [List.filter_eq_nil_iff]
    intro r hr
    rw [List.mem_map] at hr
    obtain ⟨t, -, rfl⟩ := hr
    simp only [beq_iff_eq]
    exact fun he => h he.symm
  have h3 : List.filter (fun r => r.article == s)
      (List.filter (fun r => !(r.article == slug)) db.tags) =
      List.filter (fun r => r.article == s) db.tags := by
    rw [List.filter_filter]
    apply List.filter_congr
    intro a ha
    by_cases h1 : a.article = s
    · subst h1
      simp [h]
    · simp [h1]
  rw [h2, h3]
  simp

/-- Claim C5: `Article::update` returns the validation errors and leaves the
database untouched when validation fails; returns `RowNotFound` and changes
nothing when no article with the given slug and author exists; and
otherwise (slugs being unique) updates title, description, body and
`updated_at` of that article, replaces its tag set with exactly the given
tags, leaves everything else unchanged, and returns `Ok(None)`. -/
theorem c5_article_update (db : DB)
    (now author slug title description body : String) (tags : List String) :
    (∀ errors, Article.validate title description body tags = some errors →
      Article.update db now author slug title description body tags =
        (db, .ok (some errors))) ∧
      (Article.validate title description body tags = none →
        (∀ a ∈ db.articles, ¬(a.slug = slug ∧ a.author = author)) →
        Article.update db now author slug title description body tags =
          (db, .error .RowNotFound)) ∧
      (Article.validate title description body tags = none →
        (db.articles.map fun a => a.slug).Nodup →
        ∀ a0 ∈ db.articles, a0.slug = slug → a0.author = author →
          (Article.update db now author slug title description body tags).2 =
              .ok none ∧
            ({ a0 with
                title := title
                description := description
                body := body
                updated_at := some now } ∈
              (Article.update db now author slug title description body
                tags).1.articles) ∧
            (∀ a ∈ db.articles, ¬(a.slug = slug ∧ a.author = author) →
              a ∈ (Article.update db now author slug title description body
                tags).1.articles) ∧
            (Article.update db now author slug title description body
                tags).1.articles.length = db.articles.length ∧
            tagsFor (Article.update db now author slug title description body
                tags).1 slug = tags ∧
            (∀ s, s ≠ slug →
              tagsFor (Article.update db now author slug title description
                body tags).1 s = tagsFor db s) ∧
            (Article.update db now author slug title description body
                tags).1.users = db.users ∧
            (Article.update db now author slug title description body
                tags).1.favorites = db.favorites ∧
            (Article.update db now author slug title description body
                tags).1.follows = db.follows ∧
            (Article.update db now author slug title description body
                tags).1.comments = db.comments) := by
  refine ⟨?_, ?_, ?_⟩
  · intro errors hv
    unfold Article.update
    rw [hv]
  · intro hv hno
    have hc0 : (db.articles.countP
        fun a => a.slug == slug && a.author == author) = 0 := by
      rw [List.countP_eq_zero]
      intro a ha hm
      rw [Bool.and_eq_true, beq_iff_eq, beq_iff_eq] at hm
      exact hno a ha hm
    have hmap : (db.articles.map fun a =>
        if a.slug == slug && a.author == author then
          { a with
            title := title
            description := description
            body := body
            updated_at := some now }
        else a) = db.articles := by
      apply map_ite_of_none
      intro a ha
      rw [List.countP_eq_zero] at hc0
      exact Bool.eq_false_iff.mpr (hc0 a ha)
    unfold Article.update
    rw [hv]
    dsimp only
    rw [hc0, hmap]
    rfl
  · intro hv hn a0 ha0 hslug hauthor
    have hcount : (db.articles.countP
        fun a => a.slug == slug && a.author == author) = 1 := by
      apply countP_key_eq_one (fun a => a.slug) _ hn ha0
      · rw [Bool.and_eq_true, beq_iff_eq, beq_iff_eq]
        exact ⟨hslug, hauthor⟩
      · intro a ha hp
        rw [Bool.and_eq_true, beq_iff_eq, beq_iff_eq] at hp
        rw [hp.1, hslug]
    have heq : Article.update db now author slug title description body tags =
        (Article.add_tags (Article.clear_tags
          { db with articles := (db.articles.map fun a =>
              if a.slug == slug && a.author == author then
                { a with
                  title := title
                  description := description
                  body := body
                  updated_at := some now }
              else a) } slug) slug tags, .ok none) := by
      unfold Article.update
      rw [hv]
      dsimp only
      rw [hcount]
      rfl
    rw [heq]
    refine ⟨rfl, ?_, ?_, ?_, ?_, ?_, rfl, rfl, rfl, rfl⟩
    · have hcond : (a0.slug == slug && a0.author == author) = true := by
        rw [Bool.and_eq_true, beq_iff_eq, beq_iff_eq]
        exact ⟨hslug, hauthor⟩
      have hm := List.mem_map_of_mem (fun a : ArticleRow =>
        if a.slug == slug && a.author == author then
          { a with
            title := title
            description := description
            body := body
            updated_at := some now }
        else a) ha0
      simp only [hcond, if_true] at hm
      exact hm
    · intro a ha hnm
      have hcond : (a.slug == slug && a.author == author) = false := by
        rw [Bool.and_eq_false_iff]
        by_cases h1 : a.slug = slug
        · right
          rw [Bool.eq_false_iff]
          intro h2
          exact hnm ⟨h1, beq_iff_eq.mp h2⟩
        · left
          rw [Bool.eq_false_iff]
          intro h2
          exact h1 (beq_iff_eq.mp h2)
      have hm := List.mem_map_of_mem (fun a : ArticleRow =>
        if a.slug == slug && a.author == author then
          { a with
            title := title
            description := description
            body := body
            updated_at := some now }
        else a) ha
      simp only [hcond, Bool.false_eq_true, if_false] at hm
      exact hm
    · exact List.length_map _ _
    · exact tagsFor_replace _ slug tags
    · intro s hs
      exact tagsFor_replace_other _ slug s tags hs

/-- Witness for C5: a concrete successful update on the sample database. -/
theorem c5_article_update_witness :
    (Article.validate "New" "nd" "nb" ["tag"] = none ∧
      (sampleDB.articles.map fun a => a.slug).Nodup) ∧
      (Article.update sampleDB "2024-02-01" "bob" "first-post" "New" "nd" "nb"
          ["tag"]).2 = .ok none ∧
      tagsFor (Article.update sampleDB "2024-02-01" "bob" "first-post" "New"
          "nd" "nb" ["tag"]).1 "first-post" = ["tag"] :=
  ⟨⟨by decide, by decide⟩,
    ((c5_article_update sampleDB "2024-02-01" "bob" "first-post" "New" "nd"
        "nb" ["tag"]).2.2 (by decide) (by decide)
      { slug := "first-post", title := "First Post", description := "d",
        body := "b", author := "bob", created_at := "2024-01-02",
        updated_at := none }
      (by decide) (by decide) (by decide)).1,
    ((c5_article_update sampleDB "2024-02-01" "bob" "first-post" "New" "nd"
        "nb" ["tag"]).2.2 (by decide) (by decide)
      { slug := "first-post", title := "First Post", description := "d",
        body := "b", author := "bob", created_at := "2024-01-02",
        updated_at := none }
      (by decide) (by decide) (by decide)).2.2.2.2.1⟩

/-! ## Claim C8: social-graph invariants -/

/-- Claim C8: `toggle_follow` returns `Ok(false)` and changes nothing when
the target equals the logged-in user, `toggle_favorite` returns `Ok(false)`
and changes nothing when the named article does not exist or is authored by
the logged-in user, and both operations (the only ones inserting `follow` or
`favorite` rows) preserve the invariant that no user follows themself and no
user favorites their own article. -/
theorem c8_toggle_invariants (db : DB) :
    (∀ loggedIn user current, user = loggedIn →
      toggle_follow db loggedIn user current = (db, .ok false)) ∧
      (∀ loggedIn article current, (∀ a ∈ db.articles, a.slug ≠ article) →
        toggle_favorite db loggedIn article current = (db, .ok false)) ∧
      (∀ loggedIn article current a0,
        (db.articles.map fun a => a.slug).Nodup → a0 ∈ db.articles →
          a0.slug = article → a0.author = loggedIn →
          toggle_favorite db loggedIn article current = (db, .ok false)) ∧
      (∀ loggedIn user current, SocialInv db →
        SocialInv (toggle_follow db loggedIn user current).1) ∧
      (∀ loggedIn article current, SocialInv db →
        (db.articles.map fun a => a.slug).Nodup →
        SocialInv (toggle_favorite db loggedIn article current).1) := by
  refine ⟨?_, ?_, ?_, ?_, ?_⟩
  · intro loggedIn user current h
    unfold toggle_follow
    rw [if_pos (beq_iff_eq.mpr h.symm)]
  · intro loggedIn article current hno
    have hf : (db.articles.find? fun a => a.slug == article) = none :=
      List.find?_eq_none.mpr fun a ha hp => hno a ha (beq_iff_eq.mp hp)
    unfold toggle_favorite
    rw [hf]
    rfl
  · intro loggedIn article current a0 hn ha0 hslug hauthor
    unfold toggle_favorite
    rw [find?_key_of_nodup (fun a => a.slug) hn ha0 article hslug]
    have hcond : ((if a0.author == loggedIn then (1 : Int) else 0) != 0) =
        true := by
      rw [if_pos (beq_iff_eq.mpr hauthor)]
      rfl
    exact if_pos hcond
  · intro loggedIn user current hinv
    unfold toggle_follow
    dsimp only
    split_ifs with h1 h2 h3
    · exact hinv
    · obtain ⟨hfol, hfav⟩ := hinv
      refine ⟨?_, hfav⟩
      intro f hf
      exact hfol f (List.mem_filter.mp hf).1
    · exact hinv
    · obtain ⟨hfol, hfav⟩ := hinv
      refine ⟨?_, hfav⟩
      intro f hf
      rw [List.mem_append] at hf
      rcases hf with hf | hf
      · exact hfol f hf
      · rw [List.mem_singleton] at hf
        subst hf
        intro he
        exact h1 (beq_iff_eq.mpr he)
  · intro loggedIn article current hinv hn
    unfold toggle_favorite
    dsimp only
    split_ifs with h1 h2 h3
    · exact hinv
    · obtain ⟨hfol, hfav⟩ := hinv
      refine ⟨hfol, ?_⟩
      intro v hv a ha hsl
      exact hfav v (List.mem_filter.mp hv).1 a ha hsl
    · exact hinv
    · obtain ⟨hfol, hfav⟩ := hinv
      refine ⟨hfol, ?_⟩
      intro v hv a ha hsl
      rw [List.mem_append] at hv
      rcases hv with hv | hv
      · exact hfav v hv a ha hsl
      · rw [List.mem_singleton] at hv
        subst hv
        intro hauth
        rw [Bool.not_eq_true] at h1
        cases hfind : db.articles.find? fun x => x.slug == article with
        | none =>
          rw [hfind] at h1
          dsimp only at h1
          exact absurd h1 (by decide)
        | some a1 =>
          rw [hfind] at h1
          dsimp only at h1
          by_cases hca : (a1.author == loggedIn) = true
          · rw [if_pos hca] at h1
            exact absurd h1 (by decide)
          · have hfa := find?_key_of_nodup (fun x => x.slug) hn ha article hsl
            rw [hfind] at hfa
            injection hfa with hfa
            subst hfa
            exact hca (beq_iff_eq.mpr hauth)

/-- Witness for C8: on the sample database, `alice` cannot follow herself
and the follow invariant is preserved by a real toggle. -/
theorem c8_toggle_invariants_witness :
    toggle_follow sampleDB "alice" "alice" false = (sampleDB, .ok false) ∧
      (SocialInv sampleDB ∧
        (sampleDB.articles.map fun a => a.slug).Nodup) ∧
      SocialInv (toggle_favorite sampleDB "alice" "first-post" false).1 :=
  ⟨(c8_toggle_invariants sampleDB).1 "alice" "alice" false rfl,
    ⟨⟨by decide, by decide⟩, by decide⟩,
    (c8_toggle_invariants sampleDB).2.2.2.2 "alice" "first-post" false
      ⟨by decide, by decide⟩ (by decide)⟩
